import Mathlib

/-!
Shallow embedding of the bbgo-marketcap rebalancing strategy
(src/strategy.go, src/float_slice.go).  Floating-point values are
modelled as exact rationals (ℚ); the bbgo library slices
(`types.Float64Slice`) become `List ℚ` and the `fixedpoint.Value`
wrappers become plain rationals (`NewFromFloat` is the identity in the
exact-arithmetic model).
-/

namespace Marketcap


/-- The bbgo type `types.Float64Slice`, modelled as a list of
exact rationals. -/
abbrev Float64Slice := List ℚ

/-- Modelled from the spec: `sum(v)` — the bbgo `Float64Slice.Sum`
method (not under src/), the arithmetic sum of all elements, computed
by a left fold as the Go loop does. -/
def Sum (s : Float64Slice) : ℚ :=
  s.foldl (fun acc x => acc + x) 0

/-- Modelled from the spec: the bbgo `Float64Slice.DivScalar` method
(not under src/): elementwise division by a scalar. -/
def DivScalar (s : Float64Slice) (x : ℚ) : Float64Slice :=
  s.map (fun v => v / x)

/-- Modelled from the spec: `scale(v, k)` — the bbgo
`Float64Slice.MulScalar` method (not under src/): elementwise
multiplication by a scalar. -/
def MulScalar (s : Float64Slice) (x : ℚ) : Float64Slice :=
  s.map (fun v => v * x)

/-- Modelled from the spec: `elementwise_multiply(a, b)` — the bbgo
`Float64Slice.Mul` method (not under src/). -/
def Mul (a b : Float64Slice) : Float64Slice :=
  List.zipWith (fun x y => x * y) a b

/-- Function `Normalize` from src/float_slice.go: `s.DivScalar(s.Sum())`.
The bbgo method `Float64Slice.Normalize` used in strategy.go has the
same definition.  The source has no guard for a zero sum. -/
def Normalize (s : Float64Slice) : Float64Slice :=
  DivScalar s (Sum s)

/-- The type `types.SideType` (only the two values the strategy uses). -/
inductive SideType where
  | Buy
  | Sell
  deriving DecidableEq, Repr

/-- The type `types.OrderType` (only the value the strategy uses). -/
inductive OrderType where
  | Limit
  deriving DecidableEq, Repr

/-- The type `types.SubmitOrder`, restricted to the fields the strategy sets. -/
structure SubmitOrder where
  Symbol : String
  Side : SideType
  type : OrderType
  Quantity : ℚ
  Price : ℚ
  deriving DecidableEq, Repr

/-- The `Strategy` configuration struct from src/strategy.go
(the external collaborator handles are omitted; numeric fields are
exact rationals). -/
structure Strategy where
  Interval : String
  BaseCurrency : String
  BaseWeight : ℚ
  TargetCurrencies : List String
  Threshold : ℚ
  IgnoreLocked : Bool
  Verbose : Bool
  DryRun : Bool
  MaxAmount : ℚ
  deriving DecidableEq, Repr

/-- Function `Validate` from src/strategy.go: returns the first violated
invariant's error message, or `none`.  The Go loop over
`TargetCurrencies` returns on the first currency equal to
`BaseCurrency`; since the message does not depend on which currency
matched, `List.any` is an exact translation. -/
def Validate (s : Strategy) : Option String :=
  if s.TargetCurrencies = [] then
    some "taretCurrencies should not be empty"
  else if s.TargetCurrencies.any (fun c => c = s.BaseCurrency) then
    some "targetCurrencies contain baseCurrency"
  else if s.Threshold < 0 then
    some "threshold should not less than 0"
  else if s.MaxAmount < 0 then
    some "maxAmount shoud not less than 0"
  else
    none

/-- Modelled from the spec: `bbgo.AdjustQuantityByMaxAmount` (not under
src/).  Per the spec, when `maxAmount > 0` the traded quantity is
capped so that `quantity * price ≤ maxAmount`; if the uncapped
notional exceeds `maxAmount` the quantity becomes
`maxAmount / price`. -/
def AdjustQuantityByMaxAmount (quantity price maxAmount : ℚ) : ℚ :=
  if maxAmount < quantity * price then maxAmount / price else quantity

/-- One iteration of the order-generation loop in
`generateSubmitOrders` (src/strategy.go lines 199-251) at index `i`
with target currency `currency`: returns `none` when the dead-band
`continue` is taken, otherwise the submitted order. -/
def orderForIndex (s : Strategy) (prices targetWeights : Float64Slice)
    (currentWeights : Float64Slice) (totalValue : ℚ)
    (i : ℕ) (currency : String) : Option SubmitOrder :=
  let symbol := currency ++ s.BaseCurrency
  let currentWeight := currentWeights.getD i 0
  let currentPrice := prices.getD i 0
  let targetWeight := targetWeights.getD i 0
  let weightDifference := targetWeight - currentWeight
  if |weightDifference| < s.Threshold then
    none
  else
    let quantity := (weightDifference * totalValue) / currentPrice
    let sideQty : SideType × ℚ :=
      if quantity < 0 then (SideType.Sell, |quantity|) else (SideType.Buy, quantity)
    let side := sideQty.1
    let quantity := sideQty.2
    let quantity :=
      if 0 < s.MaxAmount then AdjustQuantityByMaxAmount quantity currentPrice s.MaxAmount
      else quantity
    some { Symbol := symbol, Side := side, type := OrderType.Limit,
           Quantity := quantity, Price := currentPrice }

/-- Function `generateSubmitOrders` from src/strategy.go: normalize the market
values into current weights, then loop over the target currencies with
their indices, collecting the orders that survive the dead-band. -/
def generateSubmitOrders (s : Strategy)
    (prices marketValues targetWeights : Float64Slice) : List SubmitOrder :=
  let currentWeights := Normalize marketValues
  let totalValue := Sum marketValues
  s.TargetCurrencies.enum.filterMap
    (fun p => orderForIndex s prices targetWeights currentWeights totalValue p.1 p.2)

/-- The market-cap query loop of `getTargetWeights`
(src/strategy.go lines 97-103): query each target currency in order,
returning the first error, otherwise the list of market caps. -/
def queryLoop (query : String → Except String ℚ) : List String → Except String Float64Slice
  | [] => Except.ok []
  | c :: rest =>
    match query c with
    | Except.error e => Except.error e
    | Except.ok marketCap =>
      match queryLoop query rest with
      | Except.error e => Except.error e
      | Except.ok weights => Except.ok (marketCap :: weights)

/-- Function `getTargetWeights` from src/strategy.go: query market caps,
normalize, rescale by `1 - baseWeight`, append the base weight.  The
glassnode data source becomes the abstract `query` capability. -/
def getTargetWeights (s : Strategy) (query : String → Except String ℚ) :
    Except String Float64Slice :=
  match queryLoop query s.TargetCurrencies with
  | Except.error e => Except.error e
  | Except.ok weights =>
    let weights := Normalize weights
    let weights := MulScalar weights (1 - s.BaseWeight)
    Except.ok (weights ++ [s.BaseWeight])

/-- A balance entry of `types.BalanceMap` (the fields the strategy
reads). -/
structure Balance where
  Available : ℚ
  Locked : ℚ
  deriving DecidableEq, Repr

/-- Method `Balance.Total()` from the bbgo types package: available plus
locked. -/
def Balance.Total (b : Balance) : ℚ := b.Available + b.Locked

/-- The type `types.BalanceMap`: a Go map defaults to the zero value for a
missing key, so it is modelled as a total function. -/
abbrev BalanceMap := String → Balance

/-- Function `getPrices` from src/strategy.go: query the last ticker price of
each target symbol in order (fail-fast), then append the base
currency's price `1.0`. -/
def getPrices (s : Strategy) (queryTicker : String → Except String ℚ) :
    Except String Float64Slice :=
  match queryLoop (fun currency => queryTicker (currency ++ s.BaseCurrency)) s.TargetCurrencies with
  | Except.error e => Except.error e
  | Except.ok prices => Except.ok (prices ++ [1])

/-- Function `getQuantities` from src/strategy.go: each target currency's held
amount (total or available per the locked-funds flag), then the base
currency's amount appended last. -/
def getQuantities (s : Strategy) (balances : BalanceMap) : Float64Slice :=
  (s.TargetCurrencies.map (fun currency =>
    if s.IgnoreLocked then (balances currency).Total else (balances currency).Available))
  ++ [if s.IgnoreLocked then (balances s.BaseCurrency).Total
      else (balances s.BaseCurrency).Available]

/-- Function `logAssets` from src/strategy.go, reduced to its control flow: it
panics when `len(Normalize(marketValues)) - 1 != len(TargetCurrencies)`
(integer arithmetic, hence the cast through ℤ), otherwise only logs. -/
def logAssets (s : Strategy) (marketValues prices quantities : Float64Slice) :
    Except String Unit :=
  let weights := Normalize marketValues
  if ((weights.length : ℤ) - 1 ≠ (s.TargetCurrencies.length : ℤ)) then
    Except.error "len(weights)-1 != len(s.TargetCurrencies)"
  else
    Except.ok ()

/-- Concrete no-drift input for claim C1: one target currency, threshold
exactly 0, market values `[1, 1]`, target weights `[1/2, 1/2]`. -/
def strategyNoDrift : Strategy :=
  { Interval := "1h"
    BaseCurrency := "USDT"
    BaseWeight := 1/2
    TargetCurrencies := ["BTC"]
    Threshold := 0
    IgnoreLocked := false
    Verbose := false
    DryRun := false
    MaxAmount := 0 }

/-- Concrete input for claim C2's counterexample (threshold 0, exact
no-drift). -/
def strategyZeroQty : Strategy :=
  { Interval := "1h"
    BaseCurrency := "USDT"
    BaseWeight := 1/2
    TargetCurrencies := ["ETH"]
    Threshold := 0
    IgnoreLocked := false
    Verbose := false
    DryRun := false
    MaxAmount := 0 }

/-- The sell order of the spec's worked rebalance scenario
(§8: prices [10,20,1], market values [50,20,50], targets
[0.24,0.56,0.2], threshold 0.05). -/
def orderSellA : SubmitOrder :=
  { Symbol := "AUSD"
    Side := SideType.Sell
    type := OrderType.Limit
    Quantity := 53/25
    Price := 10 }

/-- The buy order of the same scenario. -/
def orderBuyB : SubmitOrder :=
  { Symbol := "BUSD"
    Side := SideType.Buy
    type := OrderType.Limit
    Quantity := 59/25
    Price := 20 }

/-- The spec's worked rebalance scenario configuration (no notional
cap). -/
def strategyRebal : Strategy :=
  { Interval := "1h"
    BaseCurrency := "USD"
    BaseWeight := 1/5
    TargetCurrencies := ["A", "B"]
    Threshold := 1/20
    IgnoreLocked := false
    Verbose := false
    DryRun := false
    MaxAmount := 0 }

/-- Configuration for the C3 witness: the spec's worked scenario, with a
target weight vector whose first entry equals the current weight. -/
def strategyDead : Strategy :=
  { Interval := "1h"
    BaseCurrency := "USD"
    BaseWeight := 1/5
    TargetCurrencies := ["A", "B"]
    Threshold := 1/20
    IgnoreLocked := false
    Verbose := false
    DryRun := false
    MaxAmount := 0 }

/-- The spec's worked scenario with a notional cap of 10. -/
def strategyCap : Strategy :=
  { Interval := "1h"
    BaseCurrency := "USD"
    BaseWeight := 1/5
    TargetCurrencies := ["A", "B"]
    Threshold := 1/20
    IgnoreLocked := false
    Verbose := false
    DryRun := false
    MaxAmount := 10 }

/-- The capped sell order of that scenario: the uncapped quantity 53/25
at price 10 has notional 21.2 > 10, so it is capped to 10/10 = 1. -/
def orderSellACap : SubmitOrder :=
  { Symbol := "AUSD"
    Side := SideType.Sell
    type := OrderType.Limit
    Quantity := 1
    Price := 10 }

/-- The capped buy order of that scenario (uncapped notional 47.2,
capped quantity 10/20 = 1/2). -/
def orderBuyBCap : SubmitOrder :=
  { Symbol := "BUSD"
    Side := SideType.Buy
    type := OrderType.Limit
    Quantity := 1/2
    Price := 20 }

/-- Market-cap source of the spec's §8 weight scenario
(BTC ↦ 300, ETH ↦ 700). -/
def queryCap : String → Except String ℚ
  | "BTC" => Except.ok 300
  | "ETH" => Except.ok 700
  | _ => Except.error "unsupported currency"

/-- Configuration of the spec's §8 weight scenario (base weight 1/5). -/
def strategyWeights : Strategy :=
  { Interval := "1h"
    BaseCurrency := "USD"
    BaseWeight := 1/5
    TargetCurrencies := ["BTC", "ETH"]
    Threshold := 1/20
    IgnoreLocked := false
    Verbose := false
    DryRun := false
    MaxAmount := 0 }

/-- Market-cap source that only knows BTC, for the C8 witness. -/
def queryFailETH : String → Except String ℚ
  | "BTC" => Except.ok 300
  | _ => Except.error "query failed"

/-- Configuration for the C8 witness: ETH's query fails. -/
def strategyFail : Strategy :=
  { Interval := "1h"
    BaseCurrency := "USD"
    BaseWeight := 1/5
    TargetCurrencies := ["BTC", "ETH"]
    Threshold := 1/20
    IgnoreLocked := false
    Verbose := false
    DryRun := false
    MaxAmount := 0 }

/-- A configuration satisfying all four invariants, for the C9
witness. -/
def strategyValid : Strategy :=
  { Interval := "1h"
    BaseCurrency := "USDT"
    BaseWeight := 1/2
    TargetCurrencies := ["BTC"]
    Threshold := 1/100
    IgnoreLocked := false
    Verbose := false
    DryRun := false
    MaxAmount := 100 }

/-- Configuration for the C10 witness. -/
def strategyLog : Strategy :=
  { Interval := "1h"
    BaseCurrency := "USDT"
    BaseWeight := 1/2
    TargetCurrencies := ["BTC"]
    Threshold := 1/100
    IgnoreLocked := false
    Verbose := false
    DryRun := false
    MaxAmount := 0 }

theorem foldl_add_eq (l : List ℚ) (a : ℚ) :
    l.foldl (fun acc x => acc + x) a = a + l.sum := by
  induction l generalizing a with
  | nil => simp
  | cons x xs ih => simp [List.foldl, ih, List.sum_cons]; ring

theorem Sum_eq_listSum (l : Float64Slice) : Sum l = l.sum := by
  simp [Sum, foldl_add_eq]

theorem Sum_append (l : Float64Slice) (x : ℚ) : Sum (l ++ [x]) = Sum l + x := by
  simp [Sum_eq_listSum]

theorem Sum_MulScalar (l : Float64Slice) (k : ℚ) : Sum (MulScalar l k) = Sum l * k := by
  simp only [Sum_eq_listSum, MulScalar]
  induction l with
  | nil => simp
  | cons x xs ih => simp [ih]; ring

theorem Sum_DivScalar (l : Float64Slice) (k : ℚ) : Sum (DivScalar l k) = Sum l / k := by
  simp only [Sum_eq_listSum, DivScalar]
  induction l with
  | nil => simp
  | cons x xs ih => simp [ih]; ring

theorem Sum_Normalize (v : Float64Slice) (h : Sum v ≠ 0) : Sum (Normalize v) = 1 := by
  simp [Normalize, Sum_DivScalar, div_self h]

theorem DivScalar_length (l : Float64Slice) (k : ℚ) : (DivScalar l k).length = l.length := by
  simp [DivScalar]

theorem MulScalar_length (l : Float64Slice) (k : ℚ) : (MulScalar l k).length = l.length := by
  simp [MulScalar]

theorem Normalize_length (l : Float64Slice) : (Normalize l).length = l.length := by
  simp [Normalize, DivScalar_length]

theorem DivScalar_getD (l : Float64Slice) (k : ℚ) (i : ℕ) :
    (DivScalar l k).getD i 0 = l.getD i 0 / k := by
  induction l generalizing i with
  | nil => simp [DivScalar]
  | cons x xs ih =>
    cases i with
    | zero => simp [DivScalar]
    | succ n => simpa [DivScalar] using ih n

theorem Normalize_getD (l : Float64Slice) (i : ℕ) :
    (Normalize l).getD i 0 = l.getD i 0 / Sum l := by
  rw [Normalize, DivScalar_getD]

theorem mem_enum_fst_lt {α : Type} {l : List α} {p : ℕ × α} (h : p ∈ l.enum) :
    p.1 < l.length := by
  obtain ⟨j, c⟩ := p
  rw [List.enum_eq_zip_range] at h
  exact List.mem_range.mp (List.of_mem_zip h).1

theorem queryLoop_ok_length (q : String → Except String ℚ) (l : List String)
    (caps : Float64Slice) (h : queryLoop q l = Except.ok caps) :
    caps.length = l.length := by
  induction l generalizing caps with
  | nil => simp [queryLoop] at h; simp [← h]
  | cons c rest ih =>
    simp only [queryLoop] at h
    cases hq : q c with
    | error e => simp [hq] at h
    | ok mc =>
      rw [hq] at h
      cases hrest : queryLoop q rest with
      | error e => simp [hrest] at h
      | ok ws =>
        rw [hrest] at h
        simp only [Except.ok.injEq] at h
        subst h
        simp [ih ws hrest]

theorem queryLoop_ok_iff (q : String → Except String ℚ) (l : List String) :
    (∃ caps, queryLoop q l = Except.ok caps) ↔ ∀ c ∈ l, ∃ x, q c = Except.ok x := by
  induction l with
  | nil => simp [queryLoop]
  | cons c rest ih =>
    constructor
    · rintro ⟨caps, h⟩
      simp only [queryLoop] at h
      cases hq : q c with
      | error e => simp [hq] at h
      | ok mc =>
        rw [hq] at h
        cases hrest : queryLoop q rest with
        | error e => simp [hrest] at h
        | ok ws =>
          intro c' hc'
          rcases List.mem_cons.mp hc' with rfl | hmem
          · exact ⟨mc, hq⟩
          · exact ih.mp ⟨ws, hrest⟩ c' hmem
    · intro hall
      obtain ⟨mc, hq⟩ := hall c (List.mem_cons_self c rest)
      obtain ⟨ws, hrest⟩ := ih.mpr (fun c' hc' => hall c' (List.mem_cons_of_mem c hc'))
      exact ⟨mc :: ws, by simp [queryLoop, hq, hrest]⟩

theorem queryLoop_first_error (q : String → Except String ℚ) (l₁ : List String)
    (c : String) (l₂ : List String) (e : String)
    (hok : ∀ c' ∈ l₁, ∃ x, q c' = Except.ok x) (herr : q c = Except.error e) :
    queryLoop q (l₁ ++ c :: l₂) = Except.error e := by
  induction l₁ with
  | nil => simp [queryLoop, herr]
  | cons a rest ih =>
    obtain ⟨x, hx⟩ := hok a (List.mem_cons_self a rest)
    have hrest := ih (fun c' hc' => hok c' (List.mem_cons_of_mem a hc'))
    simp [queryLoop, hx, hrest]

theorem adjust_nonneg (q p ma : ℚ) (hq : 0 ≤ q) (hma : 0 < ma) :
    0 ≤ AdjustQuantityByMaxAmount q p ma := by
  unfold AdjustQuantityByMaxAmount
  split
  · next hlt =>
      have hp : 0 < p := by
        by_contra hnp
        push_neg at hnp
        nlinarith
      positivity
  · exact hq

theorem adjust_notional_le (q p ma : ℚ) (hq : 0 ≤ q) (hma : 0 < ma) :
    AdjustQuantityByMaxAmount q p ma * p ≤ ma := by
  unfold AdjustQuantityByMaxAmount
  split
  · next hlt =>
      have hp : 0 < p := by
        by_contra hnp
        push_neg at hnp
        nlinarith
      rw [div_mul_cancel₀ _ (ne_of_gt hp)]
  · next hge => exact le_of_not_lt hge

theorem orderForIndex_quantity (s : Strategy)
    (prices targetWeights currentWeights : Float64Slice) (totalValue : ℚ)
    (i : ℕ) (currency : String) (o : SubmitOrder)
    (h : orderForIndex s prices targetWeights currentWeights totalValue i currency = some o) :
    0 ≤ o.Quantity ∧ o.Price = prices.getD i 0 ∧
      (0 < s.MaxAmount → o.Quantity * o.Price ≤ s.MaxAmount) := by
  simp only [orderForIndex] at h
  split at h
  · exact absurd h (by simp)
  · have h' := Option.some.inj h
    subst h'
    set q0 := (targetWeights.getD i 0 - currentWeights.getD i 0) * totalValue / prices.getD i 0 with hq0
    have hq1 : 0 ≤ (if q0 < 0 then (SideType.Sell, |q0|) else (SideType.Buy, q0)).2 := by
      split
      · exact abs_nonneg _
      · next hnlt => exact le_of_not_lt hnlt
    refine ⟨?_, rfl, ?_⟩
    · dsimp only
      split
      · next hma => exact adjust_nonneg _ _ _ hq1 hma
      · exact hq1
    · intro hma
      dsimp only
      rw [if_pos hma]
      exact adjust_notional_le _ _ _ hq1 hma

/-- C1 counterexample: with `threshold = 0` (allowed by the claim's
`threshold ≥ 0`) and the current weight vector exactly equal to the
target weight vector at the only target index, `generateSubmitOrders`
still emits an order: `|0| < 0` is false, so the dead-band `continue`
is not taken and a zero-quantity order is produced. -/
theorem noDrift_zero_threshold_order_emitted :
    (0 : ℚ) ≤ strategyNoDrift.Threshold ∧
    (Normalize [1, 1]).getD 0 0 = ([1/2, 1/2] : Float64Slice).getD 0 0 ∧
    generateSubmitOrders strategyNoDrift [1, 1] [1, 1] [1/2, 1/2] ≠ [] := by
  refine ⟨by norm_num [strategyNoDrift], ?_, ?_⟩
  · rw [Normalize_getD]
    norm_num [Sum]
  · simp [generateSubmitOrders, orderForIndex, Normalize, DivScalar, Sum, strategyNoDrift]

/-- C1 (amended): idempotence under no-drift holds for every strictly
positive threshold: if the current weight vector (normalized market
values) equals the target weight vector at every target-asset index,
`generateSubmitOrders` returns no orders. -/
theorem generateSubmitOrders_no_drift_empty (s : Strategy)
    (prices marketValues targetWeights : Float64Slice)
    (hth : 0 < s.Threshold)
    (hw : ∀ i, i < s.TargetCurrencies.length →
      (Normalize marketValues).getD i 0 = targetWeights.getD i 0) :
    generateSubmitOrders s prices marketValues targetWeights = [] := by
  simp only [generateSubmitOrders]
  rw [List.filterMap_eq_nil_iff]
  intro p hp
  have hlt := mem_enum_fst_lt hp
  simp only [orderForIndex]
  rw [hw p.1 hlt, sub_self, abs_zero, if_pos hth]

/-- Witness for the amended C1 at a concrete no-drift input with
threshold `1/100`. -/
theorem generateSubmitOrders_no_drift_empty_witness :
    generateSubmitOrders
      { strategyNoDrift with Threshold := 1/100 } [1, 1] [1, 1] [1/2, 1/2] = [] := by
  apply generateSubmitOrders_no_drift_empty
  · norm_num [strategyNoDrift]
  · intro i hi
    simp only [strategyNoDrift, List.length_cons, List.length_nil] at hi
    interval_cases i
    rw [Normalize_getD]
    norm_num [Sum]

/-- C2 counterexample: the code has no `quantity == 0` skip.  With
threshold 0 and a zero weight difference the dead-band does not fire,
and the single emitted order has quantity exactly 0, refuting the
claim that every emitted order has quantity strictly greater than 0. -/
theorem zero_quantity_order_emitted :
    (generateSubmitOrders strategyZeroQty [2, 2] [3, 3] [1/2, 1/2]).map
      (fun o => o.Quantity) = [0] := by
  simp [generateSubmitOrders, orderForIndex, Normalize, DivScalar, Sum, strategyZeroQty]
  norm_num

/-- C2 (amended): every order emitted by `generateSubmitOrders` has a
non-negative quantity; a computed trade quantity of exactly 0 that
passes the dead-band is emitted as a zero-quantity buy order rather
than skipped. -/
theorem generateSubmitOrders_quantity_nonneg (s : Strategy)
    (prices marketValues targetWeights : Float64Slice) (o : SubmitOrder)
    (ho : o ∈ generateSubmitOrders s prices marketValues targetWeights) :
    0 ≤ o.Quantity := by
  simp only [generateSubmitOrders, List.mem_filterMap] at ho
  obtain ⟨p, hp, hsome⟩ := ho
  exact (orderForIndex_quantity _ _ _ _ _ _ _ _ hsome).1

/-- Witness for the amended C2 at the spec's worked scenario. -/
theorem generateSubmitOrders_quantity_nonneg_witness :
    0 ≤ orderSellA.Quantity :=
  generateSubmitOrders_quantity_nonneg strategyRebal [10, 20, 1] [50, 20, 50]
    [6/25, 14/25, 1/5] orderSellA (by
      have h : generateSubmitOrders strategyRebal [10, 20, 1] [50, 20, 50]
          [6/25, 14/25, 1/5] = [orderSellA, orderBuyB] := by
        simp only [generateSubmitOrders, orderForIndex, strategyRebal, orderSellA,
          orderBuyB, List.enum, List.enumFrom]
        norm_num [Normalize, DivScalar, Sum, List.filterMap_cons, abs_of_nonneg]
        exact ⟨rfl, rfl⟩
      rw [h]
      simp)

/-- C3: dead-band — when the weight difference at target index `i` is
strictly below the threshold in absolute value, the loop iteration for
index `i` takes the `continue` branch (no order for any currency named
there), and consequently every order emitted by `generateSubmitOrders`
originates from some index `j ≠ i`. -/
theorem generateSubmitOrders_dead_band (s : Strategy)
    (prices marketValues targetWeights : Float64Slice) (i : ℕ)
    (h : |targetWeights.getD i 0 - (Normalize marketValues).getD i 0| < s.Threshold) :
    (∀ currency, orderForIndex s prices targetWeights (Normalize marketValues)
        (Sum marketValues) i currency = none) ∧
    ∀ o ∈ generateSubmitOrders s prices marketValues targetWeights,
      ∃ j currency, (j, currency) ∈ s.TargetCurrencies.enum ∧ j ≠ i ∧
        orderForIndex s prices targetWeights (Normalize marketValues)
          (Sum marketValues) j currency = some o := by
  have hnone : ∀ currency, orderForIndex s prices targetWeights (Normalize marketValues)
      (Sum marketValues) i currency = none := by
    intro currency
    simp only [orderForIndex]
    rw [if_pos h]
  refine ⟨hnone, ?_⟩
  intro o ho
  simp only [generateSubmitOrders, List.mem_filterMap] at ho
  obtain ⟨⟨j, c⟩, hp, hsome⟩ := ho
  refine ⟨j, c, hp, ?_, hsome⟩
  rintro rfl
  rw [hnone c] at hsome
  exact Option.noConfusion hsome

/-- Witness for C3: asset "A" at index 0 has zero weight difference, so
its loop iteration yields no order. -/
theorem generateSubmitOrders_dead_band_witness :
    orderForIndex strategyDead [10, 20, 1] [5/12, 14/25, 1/5]
      (Normalize [50, 20, 50]) (Sum [50, 20, 50]) 0 "A" = none :=
  (generateSubmitOrders_dead_band strategyDead [10, 20, 1] [50, 20, 50]
    [5/12, 14/25, 1/5] 0
    (by
      rw [Normalize_getD]
      norm_num [Sum, strategyDead])).1 "A"

/-- C4: per-order notional cap — every emitted order has a non-negative
quantity, and whenever `maxAmount > 0` its notional
`quantity * price` is at most `maxAmount`; moreover when the uncapped
notional exceeds `maxAmount` the adjustment returns exactly
`maxAmount / price` (the side is chosen before the adjustment and is
unchanged by it). -/
theorem generateSubmitOrders_notional_cap (s : Strategy)
    (prices marketValues targetWeights : Float64Slice) (o : SubmitOrder)
    (ho : o ∈ generateSubmitOrders s prices marketValues targetWeights) :
    (0 ≤ o.Quantity ∧ (0 < s.MaxAmount → o.Quantity * o.Price ≤ s.MaxAmount)) ∧
    ∀ q p ma : ℚ, 0 < ma → ma < q * p → AdjustQuantityByMaxAmount q p ma = ma / p := by
  constructor
  · simp only [generateSubmitOrders, List.mem_filterMap] at ho
    obtain ⟨p, hp, hsome⟩ := ho
    obtain ⟨h1, h2, h3⟩ := orderForIndex_quantity _ _ _ _ _ _ _ _ hsome
    exact ⟨h1, h3⟩
  · intro q p ma hma hlt
    simp [AdjustQuantityByMaxAmount, hlt]

/-- Witness for C4 at the capped scenario: the emitted sell order's
notional is within the cap. -/
theorem generateSubmitOrders_notional_cap_witness :
    orderSellACap.Quantity * orderSellACap.Price ≤ strategyCap.MaxAmount :=
  ((generateSubmitOrders_notional_cap strategyCap [10, 20, 1] [50, 20, 50]
    [6/25, 14/25, 1/5] orderSellACap (by
      have h : generateSubmitOrders strategyCap [10, 20, 1] [50, 20, 50]
          [6/25, 14/25, 1/5] = [orderSellACap, orderBuyBCap] := by
        simp only [generateSubmitOrders, orderForIndex, strategyCap, orderSellACap,
          orderBuyBCap, List.enum, List.enumFrom]
        norm_num [Normalize, DivScalar, Sum, List.filterMap_cons, abs_of_nonneg,
          AdjustQuantityByMaxAmount]
        exact ⟨rfl, rfl⟩
      rw [h]
      simp)).1).2 (by norm_num [strategyCap])

/-- C5: Weight Calculator shape — whenever `getTargetWeights` succeeds
on a non-empty target-currency list, the returned vector has length
`N + 1` and its last element is exactly the configured base weight. -/
theorem getTargetWeights_shape (s : Strategy) (query : String → Except String ℚ)
    (w : Float64Slice) (hne : s.TargetCurrencies ≠ [])
    (hw : getTargetWeights s query = Except.ok w) :
    w.length = s.TargetCurrencies.length + 1 ∧ w.getLast? = some s.BaseWeight := by
  unfold getTargetWeights at hw
  cases hq : queryLoop query s.TargetCurrencies with
  | error e =>
    rw [hq] at hw
    exact Except.noConfusion hw
  | ok caps =>
    rw [hq] at hw
    dsimp only at hw
    injection hw with hw
    subst hw
    refine ⟨?_, List.getLast?_concat _⟩
    simp [MulScalar_length, Normalize_length, queryLoop_ok_length query _ caps hq]

/-- Witness for C5 at the §8 scenario, where the computed vector is
`[0.24, 0.56, 0.2]`. -/
theorem getTargetWeights_shape_witness :
    ([6/25, 14/25, 1/5] : Float64Slice).length = strategyWeights.TargetCurrencies.length + 1 ∧
    ([6/25, 14/25, 1/5] : Float64Slice).getLast? = some strategyWeights.BaseWeight :=
  getTargetWeights_shape strategyWeights queryCap [6/25, 14/25, 1/5]
    (by simp [strategyWeights])
    (by
      simp only [getTargetWeights, strategyWeights, queryLoop, queryCap]
      norm_num [Normalize, DivScalar, MulScalar, Sum])

/-- C6: Weight Calculator sum-to-one — when every market-cap query
succeeds and the queried caps have nonzero sum, `getTargetWeights`
returns a vector summing exactly to 1 (the normalized fractions scaled
by `1 - baseWeight` plus the appended `baseWeight`). -/
theorem getTargetWeights_sum_one (s : Strategy) (query : String → Except String ℚ)
    (caps : Float64Slice) (hne : s.TargetCurrencies ≠ [])
    (hq : queryLoop query s.TargetCurrencies = Except.ok caps)
    (hsum : Sum caps ≠ 0) :
    ∃ w, getTargetWeights s query = Except.ok w ∧ Sum w = 1 := by
  refine ⟨MulScalar (Normalize caps) (1 - s.BaseWeight) ++ [s.BaseWeight], ?_, ?_⟩
  · unfold getTargetWeights
    rw [hq]
  · rw [Sum_append, Sum_MulScalar, Sum_Normalize _ hsum]
    ring

/-- Witness for C6 at the §8 scenario (caps [300, 700]). -/
theorem getTargetWeights_sum_one_witness :
    ∃ w, getTargetWeights strategyWeights queryCap = Except.ok w ∧ Sum w = 1 :=
  getTargetWeights_sum_one strategyWeights queryCap [300, 700]
    (by simp [strategyWeights])
    (by simp only [strategyWeights, queryLoop, queryCap])
    (by norm_num [Sum])

/-- C7: `Normalize` reference behaviour — for a non-empty vector with
nonzero sum the result keeps the length, its `i`-th element is
`v[i] / sum(v)`, and it sums to 1.  No guard or error exists for a
zero sum: the function always returns a plain vector. -/
theorem Normalize_spec (v : Float64Slice) (hne : v ≠ []) (hsum : Sum v ≠ 0) :
    (Normalize v).length = v.length ∧
    (∀ i, (Normalize v).getD i 0 = v.getD i 0 / Sum v) ∧
    Sum (Normalize v) = 1 :=
  ⟨Normalize_length v, fun i => Normalize_getD v i, Sum_Normalize v hsum⟩

/-- Witness for C7 at `v = [1, 3]`. -/
theorem Normalize_spec_witness :
    (Normalize [1, 3]).length = ([1, 3] : Float64Slice).length ∧
    (Normalize [1, 3]).getD 0 0 = ([1, 3] : Float64Slice).getD 0 0 / Sum [1, 3] ∧
    Sum (Normalize [1, 3]) = 1 := by
  obtain ⟨h1, h2, h3⟩ := Normalize_spec [1, 3] (by simp) (by norm_num [Sum])
  exact ⟨h1, h2 0, h3⟩

/-- C8: fail-fast weight computation — `getTargetWeights` succeeds if
and only if every market-cap query on the target list succeeds, and
when the first failure in list order is at currency `c` with error
`e`, exactly that error is propagated (no partial result). -/
theorem getTargetWeights_fail_fast (s : Strategy) (query : String → Except String ℚ) :
    ((∃ w, getTargetWeights s query = Except.ok w) ↔
      ∀ c ∈ s.TargetCurrencies, ∃ x, query c = Except.ok x) ∧
    ∀ l₁ c l₂ e, s.TargetCurrencies = l₁ ++ c :: l₂ →
      (∀ c' ∈ l₁, ∃ x, query c' = Except.ok x) →
      query c = Except.error e →
      getTargetWeights s query = Except.error e := by
  constructor
  · constructor
    · rintro ⟨w, hw⟩
      unfold getTargetWeights at hw
      cases hq : queryLoop query s.TargetCurrencies with
      | error e =>
        rw [hq] at hw
        exact Except.noConfusion hw
      | ok caps => exact (queryLoop_ok_iff query s.TargetCurrencies).mp ⟨caps, hq⟩
    · intro hall
      obtain ⟨caps, hq⟩ := (queryLoop_ok_iff query s.TargetCurrencies).mpr hall
      exact ⟨_, by unfold getTargetWeights; rw [hq]⟩
  · intro l₁ c l₂ e hsplit hok herr
    unfold getTargetWeights
    rw [hsplit, queryLoop_first_error query l₁ c l₂ e hok herr]

/-- Witness for C8: with BTC succeeding and ETH failing, the whole
computation returns ETH's error. -/
theorem getTargetWeights_fail_fast_witness :
    getTargetWeights strategyFail queryFailETH = Except.error "query failed" :=
  (getTargetWeights_fail_fast strategyFail queryFailETH).2 ["BTC"] "ETH" [] "query failed"
    rfl
    (by
      intro c' hc'
      simp only [List.mem_singleton] at hc'
      subst hc'
      exact ⟨300, rfl⟩)
    rfl

/-- C9: validation completeness — `Validate` accepts a configuration
(returns `none`) exactly when the target list is non-empty, no target
equals the base currency, the threshold is non-negative and the max
amount is non-negative. -/
theorem Validate_none_iff (s : Strategy) :
    Validate s = none ↔
      (s.TargetCurrencies ≠ [] ∧ (∀ c ∈ s.TargetCurrencies, c ≠ s.BaseCurrency) ∧
       0 ≤ s.Threshold ∧ 0 ≤ s.MaxAmount) := by
  unfold Validate
  split_ifs with h1 h2 h3 h4
  · exact iff_of_false (by simp) (fun h => h.1 h1)
  · refine iff_of_false (by simp) ?_
    rintro ⟨-, hall, -⟩
    obtain ⟨c, hc, hceq⟩ : ∃ c ∈ s.TargetCurrencies, c = s.BaseCurrency := by
      simpa using h2
    exact hall c hc hceq
  · refine iff_of_false (by simp) ?_
    rintro ⟨-, -, hth, -⟩
    exact absurd hth (not_le.mpr h3)
  · refine iff_of_false (by simp) ?_
    rintro ⟨-, -, -, hma⟩
    exact absurd hma (not_le.mpr h4)
  · refine iff_of_true rfl ⟨h1, ?_, le_of_not_lt h3, le_of_not_lt h4⟩
    intro c hc hceq
    subst hceq
    exact h2 (List.any_eq_true.mpr ⟨s.BaseCurrency, hc, by simp⟩)

/-- Witness for C9: the valid configuration passes validation. -/
theorem Validate_none_iff_witness :
    Validate strategyValid = none :=
  (Validate_none_iff strategyValid).mpr
    ⟨by simp [strategyValid],
     by
       intro c hc
       simp only [strategyValid, List.mem_singleton] at hc
       subst hc
       simp [strategyValid],
     by norm_num [strategyValid],
     by norm_num [strategyValid]⟩

/-- C10: the panic in `logAssets` is unreachable for any market-value
vector of the cycle's shape `N + 1`: normalization preserves length,
so `len(weights) - 1 == len(TargetCurrencies)` holds and `logAssets`
returns normally. -/
theorem logAssets_no_panic (s : Strategy)
    (marketValues prices quantities : Float64Slice)
    (h : marketValues.length = s.TargetCurrencies.length + 1) :
    logAssets s marketValues prices quantities = Except.ok () := by
  have hlen : ((Normalize marketValues).length : ℤ) - 1 =
      (s.TargetCurrencies.length : ℤ) := by
    rw [Normalize_length, h]
    push_cast
    ring
  simp only [logAssets]
  rw [if_neg (by simp [hlen])]

/-- Witness for C10 at a concrete length-2 market-value vector. -/
theorem logAssets_no_panic_witness :
    logAssets strategyLog [1, 2] [3, 1] [2, 2] = Except.ok () :=
  logAssets_no_panic strategyLog [1, 2] [3, 1] [2, 2] (by simp [strategyLog])

end Marketcap
